import Mathlib

/-!
Verification development for the llm-graph-builder backend
(`src/backend/src/llm.py`, `src/backend/src/main.py`,
`src/backend/src/shared/common_fn.py`).

The Python code is shallowly embedded: pure functions become Lean
functions on lists and strings; database queries and the LLM call are
abstracted as explicit inputs (their row results) or as an event trace;
Python exceptions become `Except` error values.  Recursions are written
with an explicit fuel argument (always called with fuel at least the
length of the traversed list) so that every definition reduces by
`rfl`/`decide` on concrete inputs; fuel-sufficiency lemmas recover the
natural unfolding equations.
-/

/-- Python whitespace (the ASCII class matched by `str.strip` and the
regex class `\s`): space, tab, newline, carriage return, vertical tab,
form feed. -/
def pyIsSpace (c : Char) : Bool :=
  c = ' ' || c = '\t' || c = '\n' || c = '\r' || c = '\x0b' || c = '\x0c'

/-- Opening curly brace character (written via its code point). -/
def lbrace : Char := Char.ofNat 123

/-- Closing curly brace character (written via its code point). -/
def rbrace : Char := Char.ofNat 125

/-- Backtick character (written via its code point). -/
def backtick : Char := Char.ofNat 96

/-- Drop the trailing characters satisfying `p` (the right half of
Python `str.strip`). -/
def dropTrailing (p : Char → Bool) : List Char → List Char
  | [] => []
  | c :: rest =>
    match dropTrailing p rest with
    | [] => if p c then [] else [c]
    | r :: rs => c :: r :: rs

/-- Python `str.strip()` on a character list: remove leading and
trailing whitespace. -/
def pyStripList (l : List Char) : List Char :=
  dropTrailing pyIsSpace (l.dropWhile pyIsSpace)

/-- Python `str.strip()`. -/
def pyStrip (s : String) : String :=
  String.mk (pyStripList s.toList)

/-- Python `str.split(sep)` for a one-character separator, on character
lists.  `"".split(sep) = [""]` is modelled by the `[]` case. -/
def pySplitChar (sep : Char) : List Char → List (List Char)
  | [] => [[]]
  | c :: rest =>
    if c = sep then
      [] :: pySplitChar sep rest
    else
      match pySplitChar sep rest with
      | [] => [[c]]
      | h :: t => (c :: h) :: t

/-- Python `s.split(sep)` for a one-character separator. -/
def pySplit (s : String) (sep : Char) : List String :=
  (pySplitChar sep s.toList).map String.mk

/-- `[tok.strip() for tok in s.split(sep) if tok.strip()]`: the trimmed,
non-empty tokens of a comma-separated string (the parse used for both
`allowedNodes` and `allowedRelationship` in `llm.py`). -/
def trimmedTokens (s : String) (sep : Char) : List String :=
  ((pySplit s sep).map pyStrip).filter (fun t => t != "")

/-- A value stored in a Python document-metadata dict: the shapes that
actually occur at the modelled call sites are a list of chunk-id strings
(`combined_chunk_ids` / `chunk_id`), a plain string, or a number. -/
inductive MetaVal where
  | ids : List String → MetaVal
  | str : String → MetaVal
  | num : Nat → MetaVal
deriving DecidableEq, Repr

/-- Iterating a metadata value as a list of chunk ids.  The producers in
this repository only ever store `MetaVal.ids` under the iterated keys. -/
def MetaVal.toIds : MetaVal → List String
  | .ids l => l
  | _ => []

/-- Dict lookup on an association-list metadata (`key in metadata` is
`isSome` of this). -/
def metaLookup (md : List (String × MetaVal)) (k : String) : Option MetaVal :=
  match md with
  | [] => none
  | (k2, v) :: rest => if k2 = k then some v else metaLookup rest k

/-- `langchain` `Document`: page content plus a metadata dict. -/
structure PyDocument where
  page_content : String
  metadata : List (String × MetaVal)
deriving DecidableEq, Repr

/-- One element of `chunkId_chunkDoc_list`: the dict
`{'chunk_id': ..., 'chunk_doc': Document(...)}`. -/
structure ChunkPair where
  chunk_id : String
  chunk_doc : PyDocument
deriving DecidableEq, Repr

/-- Fuel-driven core of Python `range(start, stop, step)` for a
positive step; fuel `stop - start` always suffices because `start`
grows by at least one per element. -/
def pyRangeGo (stop step : Nat) : Nat → Nat → List Nat
  | 0, _ => []
  | fuel + 1, start =>
    if start < stop then start :: pyRangeGo stop step fuel (start + step) else []

/-- Python `range(start, stop, step)` for `step > 0` (the only way it
is used in this code; `step = 0` raises `ValueError` in Python and is
guarded at the call site). -/
def pyRange (start stop step : Nat) : List Nat :=
  pyRangeGo stop step (stop - start) start

/-- `llm.py get_combined_chunks`: partition `chunkId_chunkDoc_list`
into windows of `chunks_to_combine` via `range(0, n, K)` and slices
`[i : i + K]`, concatenate each window's page contents with no
separator, and tag each combined document with its ordered chunk ids
under `combined_chunk_ids`.  The final Python loop indexes the two
equal-length comprehension results in parallel, which is `zipWith`.
`chunks_to_combine = 0` makes Python `range` raise `ValueError`,
modelled as the error case. -/
def get_combined_chunks (chunkId_chunkDoc_list : List ChunkPair)
    (chunks_to_combine : Nat) : Except String (List PyDocument) :=
  if chunks_to_combine = 0 then
    .error "ValueError: range() arg 3 must not be zero"
  else
    let n := chunkId_chunkDoc_list.length
    let combined_chunks_page_content :=
      (pyRange 0 n chunks_to_combine).map (fun i =>
        String.join (((chunkId_chunkDoc_list.drop i).take chunks_to_combine).map
          (fun document => document.chunk_doc.page_content)))
    let combined_chunks_ids :=
      (pyRange 0 n chunks_to_combine).map (fun i =>
        ((chunkId_chunkDoc_list.drop i).take chunks_to_combine).map
          (fun document => document.chunk_id))
    .ok (List.zipWith
      (fun content ids =>
        { page_content := content
          metadata := [("combined_chunk_ids", MetaVal.ids ids)] })
      combined_chunks_page_content combined_chunks_ids)

/-- `llm.py get_chunk_id_as_doc_metadata`: one document per input chunk,
tagged with its single chunk id under the key `chunk_id`. -/
def get_chunk_id_as_doc_metadata (chunkId_chunkDoc_list : List ChunkPair) :
    List PyDocument :=
  chunkId_chunkDoc_list.map (fun document =>
    { page_content := document.chunk_doc.page_content
      metadata := [("chunk_id", MetaVal.ids [document.chunk_id])] })

/-- Fuel-driven core of `re.sub(pat, repl, s, flags=IGNORECASE)` for a
literal lower-case pattern: leftmost, non-overlapping replacement, the
scan resuming after each match.  Fuel = input length suffices (each
step consumes at least one input character). -/
def pySubGo (pat repl : List Char) : Nat → List Char → List Char
  | _, [] => []
  | 0, l => l
  | fuel + 1, c :: rest =>
    if pat ≠ [] ∧ ((c :: rest).take pat.length).map Char.toLower = pat then
      repl ++ pySubGo pat repl fuel ((c :: rest).drop pat.length)
    else
      c :: pySubGo pat repl fuel rest

/-- Case-insensitive literal-pattern `re.sub` on character lists. -/
def pySubICase (pat repl : List Char) (l : List Char) : List Char :=
  pySubGo pat repl l.length l

/-- Fuel-driven core of `re.sub(r"\s+", " ", s)`: each maximal
whitespace run becomes a single space. -/
def collapseGo : Nat → List Char → List Char
  | _, [] => []
  | 0, l => l
  | fuel + 1, c :: rest =>
    if pyIsSpace c then
      ' ' :: collapseGo fuel (rest.dropWhile pyIsSpace)
    else
      c :: collapseGo fuel rest

/-- `re.sub(r"\s+", " ", s)` on character lists. -/
def collapseWs (l : List Char) : List Char :=
  collapseGo l.length l

/-- The literal injection patterns of `sanitize_additional_instruction`
(the regex escapes `\.`/`\(` denote the literal characters). -/
def injection_patterns : List (List Char) :=
  [ "os.getenv(".toList, "eval(".toList, "exec(".toList,
    "subprocess.".toList, "import os".toList, "import subprocess".toList ]

/-- The brace replacement of `sanitize_additional_instruction`:
`s.replace(chr(123), "[").replace(chr(125), "]")`, per character. -/
def braceMap (c : Char) : Char :=
  if c = lbrace then '[' else if c = rbrace then ']' else c

/-- `llm.py sanitize_additional_instruction` on a character list:
replace braces with brackets, block the injection patterns
case-insensitively (in order), collapse whitespace runs to single
spaces, and strip. -/
def sanitizeChars (l : List Char) : List Char :=
  let step1 := l.map braceMap
  let step2 := injection_patterns.foldl
    (fun s pat => pySubICase pat "[BLOCKED]".toList s) step1
  pyStripList (collapseWs step2)

/-- `llm.py sanitize_additional_instruction`. -/
def sanitize_additional_instruction (instruction : String) : String :=
  String.mk (sanitizeChars instruction.toList)

/-- The triple-validation loop of `get_graph_from_llm`: take the token
list three at a time (`items[i:i+3]` for `i in range(0, len, 3)`); a
triple whose source or target is not an allowed node raises
`LLMGraphBuilderException`.  The final catch-all mirrors the unpacking
error on a trailing group shorter than three (unreachable after the
multiple-of-3 check). -/
def validateTriples (allowed_nodes : List String) :
    List String → Except String (List (String × String × String))
  | [] => .ok []
  | source :: relation :: target :: rest =>
    if source ∈ allowed_nodes ∧ target ∈ allowed_nodes then
      (validateTriples allowed_nodes rest).map
        (fun ts => (source, relation, target) :: ts)
    else
      .error ("Invalid relationship (" ++ source ++ ", " ++ relation ++ ", "
        ++ target ++ "): source or target not in allowedNodes")
  | _ => .error "ValueError: not enough values to unpack"

/-- `llm.py get_graph_from_llm` up to (and not including) the LLM
extraction call.  `getLlm` abstracts `get_llm(model)` (an environment
lookup outside this source slice): `.error` models its exception.
`.ok` means every validation passed and
`get_graph_document_list` is invoked with exactly the returned combined
chunks, allowed nodes and allowed relationship triples.  The
surrounding `try/except` re-raises every failure as
`LLMGraphBuilderException` with the prefixed message, so all errors of
this function model that single domain error type. -/
def get_graph_from_llm (getLlm : Except String Unit)
    (chunkId_chunkDoc_list : List ChunkPair)
    (allowedNodes allowedRelationship : String) (chunks_to_combine : Nat) :
    Except String (List PyDocument × List String × List (String × String × String)) :=
  let body : Except String (List PyDocument × List String × List (String × String × String)) :=
    match getLlm with
    | .error e => .error e
    | .ok _ =>
      match get_combined_chunks chunkId_chunkDoc_list chunks_to_combine with
      | .error e => .error e
      | .ok combined_chunk_document_list =>
        let allowed_nodes := trimmedTokens allowedNodes ','
        let validated : Except String (List (String × String × String)) :=
          if allowedRelationship ≠ "" then
            let items := trimmedTokens allowedRelationship ','
            if items.length % 3 ≠ 0 then
              .error "allowedRelationship must be a multiple of 3 (source, relationship, target)"
            else
              validateTriples allowed_nodes items
          else
            .ok []
        match validated with
        | .error e => .error e
        | .ok allowed_relationships =>
          .ok (combined_chunk_document_list, allowed_nodes, allowed_relationships)
  body.mapError (fun e => "Error in getting graph from llm: " ++ e)

/-- An extracted entity node of a graph document
(`langchain` `Node`: id and type/label). -/
structure GDNode where
  id : String
  type : String
deriving DecidableEq, Repr

/-- An extracted relationship of a graph document
(`langchain` `Relationship`). -/
structure GDRelationship where
  source : GDNode
  target : GDNode
  type : String
deriving DecidableEq, Repr

/-- A `langchain` `GraphDocument`: extracted nodes and relationships
plus the source document they were extracted from. -/
structure GraphDocument where
  nodes : List GDNode
  relationships : List GDRelationship
  source : PyDocument
deriving DecidableEq, Repr

/-- Remove every backtick from a string (Python `s.replace(chr(96), "")`). -/
def removeBackticks (s : String) : String :=
  String.mk (s.toList.filter (fun c => c != backtick))

/-- The node loop of `common_fn.py
handle_backticks_nodes_relationship_id_type`: keep a node when its type
and id are non-empty after stripping, removing backticks from the kept
node's type. -/
def cleanedNodes : List GDNode → List GDNode
  | [] => []
  | n :: rest =>
    if pyStrip n.type ≠ "" ∧ pyStrip n.id ≠ "" then
      { n with type := removeBackticks n.type } :: cleanedNodes rest
    else
      cleanedNodes rest

/-- The relationship loop of `common_fn.py
handle_backticks_nodes_relationship_id_type`: keep a relationship when
its type and both endpoint ids and types are non-empty after stripping,
removing backticks from the kept relationship's type and endpoint
types. -/
def cleanedRelationships : List GDRelationship → List GDRelationship
  | [] => []
  | r :: rest =>
    if pyStrip r.type ≠ "" ∧ pyStrip r.source.id ≠ "" ∧ pyStrip r.source.type ≠ ""
        ∧ pyStrip r.target.id ≠ "" ∧ pyStrip r.target.type ≠ "" then
      { source := { r.source with type := removeBackticks r.source.type }
        target := { r.target with type := removeBackticks r.target.type }
        type := removeBackticks r.type } :: cleanedRelationships rest
    else
      cleanedRelationships rest

/-- `common_fn.py handle_backticks_nodes_relationship_id_type`: clean
every graph document's node and relationship lists in place (modelled
functionally; the Python in-place mutation of the list elements is
observationally the same on the returned list). -/
def handle_backticks_nodes_relationship_id_type
    (graph_document_list : List GraphDocument) : List GraphDocument :=
  graph_document_list.map (fun graph_document =>
    { graph_document with
      nodes := cleanedNodes graph_document.nodes
      relationships := cleanedRelationships graph_document.relationships })

/-- `common_fn.py get_chunk_and_graphDocument`: for each graph document
whose source metadata has the key `combined_chunk_ids`, emit one
`{graph_doc, chunk_id}` pair per listed chunk id, in order; documents
lacking the key are skipped. -/
def get_chunk_and_graphDocument :
    List GraphDocument → List (GraphDocument × String)
  | [] => []
  | graph_document :: rest =>
    (match metaLookup graph_document.source.metadata "combined_chunk_ids" with
     | some v => v.toIds.map (fun chunk_id => (graph_document, chunk_id))
     | none => []) ++ get_chunk_and_graphDocument rest

/-- Case-sensitive substring occurrence on character lists
(Python `pat in s`). -/
def hasSubstrList (pat : List Char) : List Char → Bool
  | [] => pat == []
  | c :: rest => (c :: rest).take pat.length == pat || hasSubstrList pat rest

/-- Python `pat in s` for strings. -/
def pyInStr (pat s : String) : Bool :=
  hasSubstrList pat.toList s.toList

/-- Case-insensitive substring occurrence on character lists. -/
def hasSubstrListICase (pat : List Char) : List Char → Bool
  | [] => pat == []
  | c :: rest =>
    ((c :: rest).take pat.length).map Char.toLower == pat || hasSubstrListICase pat rest

/-- Case-insensitive substring occurrence (pattern given lower-case). -/
def hasSubstrICase (pat s : String) : Bool :=
  hasSubstrListICase pat.toList s.toList

/-- The outcome of one attempt of an abstracted database call: success,
a `neo4j TransientError` carrying its string form, or any other
exception. -/
inductive DbOutcome (α : Type) where
  | ok : α → DbOutcome α
  | transientErr : String → DbOutcome α
  | otherErr : String → DbOutcome α
deriving DecidableEq, Repr

/-- A Python-level result: a value or a raised exception
(`TransientError` re-raised, `RuntimeError` after exhausted retries, or
any other exception). -/
inductive PyExc where
  | transient : String → PyExc
  | runtime : String → PyExc
  | other : String → PyExc
deriving DecidableEq, Repr

/-- The shared `while retries < max_retries` deadlock-retry loop of
`common_fn.py save_graphDocuments_in_neo4j` and `execute_graph_query`
(their loop bodies are textually identical up to the wrapped call, the
delay and the final message).  `attempt i` is the outcome of the
`(i+1)`-th call; the result records the value or exception, the number
of calls actually made, and the list of sleep durations performed. -/
def retryGo (attempt : Nat → DbOutcome α) (delay : Nat) (failMsg : String) :
    Nat → Nat → Except PyExc α × Nat × List Nat
  | 0, _ => (.error (.runtime failMsg), 0, [])
  | remaining + 1, idx =>
    match attempt idx with
    | .ok a => (.ok a, 1, [])
    | .transientErr msg =>
      if pyInStr "DeadlockDetected" msg then
        let r := retryGo attempt delay failMsg remaining (idx + 1)
        (r.1, r.2.1 + 1, delay :: r.2.2)
      else
        (.error (.transient msg), 1, [])
    | .otherErr msg => (.error (.other msg), 1, [])

/-- `DEFAULT_MAX_RETRIES` in `common_fn.py`. -/
def DEFAULT_MAX_RETRIES : Nat := 3

/-- `DEFAULT_RETRY_DELAY` in `common_fn.py` (seconds). -/
def DEFAULT_RETRY_DELAY : Nat := 1

/-- `DEFAULT_QUERY_RETRY_DELAY` in `common_fn.py` (seconds). -/
def DEFAULT_QUERY_RETRY_DELAY : Nat := 2

/-- `common_fn.py save_graphDocuments_in_neo4j` with the
`graph.add_graph_documents` call abstracted as `attempt`. -/
def save_graphDocuments_in_neo4j (attempt : Nat → DbOutcome Unit)
    (max_retries delay : Nat) : Except PyExc Unit × Nat × List Nat :=
  retryGo attempt delay
    "Failed to save graph documents after multiple retries due to deadlock."
    max_retries 0

/-- `common_fn.py execute_graph_query` with the `graph.query` call
abstracted as `attempt` (returning opaque row values). -/
def execute_graph_query (attempt : Nat → DbOutcome (List String))
    (max_retries delay : Nat) : Except PyExc (List String) × Nat × List Nat :=
  retryGo attempt delay
    "Query execution failed after multiple retries due to deadlock."
    max_retries 0

/-- One row of `QUERY_TO_GET_CHUNKS`: chunk id, text (nullable) and
1-indexed position. -/
structure ChunkRow where
  id : String
  text : Option String
  position : Nat
deriving DecidableEq, Repr

/-- The `START_FROM_LAST_PROCESSED_POSITION` retry-mode constant. -/
def START_FROM_LAST_PROCESSED_POSITION : String :=
  "start_from_last_processed_position"

/-- An exception escaping the retry branch of
`get_chunkId_chunkDoc_list`: the domain error, or the Python
`IndexError` raised by `rows[0]` on an empty row list. -/
inductive RetryError where
  | llmGraphBuilder : String → RetryError
  | indexError : RetryError
deriving DecidableEq, Repr

/-- Build one `{'chunk_id', 'chunk_doc'}` entry from a stored chunk row
(`Document(page_content=chunk['text'],
metadata={'id': ..., 'position': ...})`; for a row with null text
Python would store `None` as page content, modelled as the empty
string - the claims never inspect such an entry's text). -/
def mkChunkEntry (r : ChunkRow) : ChunkPair :=
  { chunk_id := r.id
    chunk_doc :=
      { page_content := r.text.getD ""
        metadata := [("id", MetaVal.str r.id), ("position", MetaVal.num r.position)] } }

/-- The retry branch (`retry_condition` truthy) of `main.py
get_chunkId_chunkDoc_list`.  `rows` are the results of
`QUERY_TO_GET_CHUNKS`, `q1` the positions returned by
`QUERY_TO_GET_LAST_PROCESSED_CHUNK_POSITION`, `q2` those of
`QUERY_TO_GET_LAST_PROCESSED_CHUNK_WITHOUT_ENTITY` (each query
abstracted by its result).  Mirrors the source exactly: the guard
`chunks[0]['text'] is None or chunks[0]['text']=="" or not chunks`
evaluates `chunks[0]` first, so an empty row list raises `IndexError`
before the dead `not chunks` test is reached.  The non-retry branch of
the Python function (fresh chunking of fetched pages) delegates to the
chunking service, which is outside this source slice. -/
def get_chunkId_chunkDoc_list_retry (rows : List ChunkRow)
    (retry_condition : String) (q1 q2 : List Nat) :
    Except RetryError (Nat × List ChunkPair) :=
  match rows with
  | [] => .error .indexError
  | r0 :: _ =>
    if r0.text = none ∨ r0.text = some "" then
      .error (.llmGraphBuilder "Chunks are not created for this file. Please re-upload file and try again.")
    else
      let chunkId_chunkDoc_list := rows.map mkChunkEntry
      if retry_condition = START_FROM_LAST_PROCESSED_POSITION then
        match q1 with
        | [] => .error (.llmGraphBuilder "All chunks of file are already processed. If you want to re-process, Please start from begnning")
        | p :: _ =>
          if p < chunkId_chunkDoc_list.length then
            .ok (rows.length, chunkId_chunkDoc_list.drop (p - 1))
          else if p = chunkId_chunkDoc_list.length then
            match q2 with
            | [] => .error .indexError
            | p2 :: _ => .ok (rows.length, chunkId_chunkDoc_list.drop (p2 - 1))
          else
            .error (.llmGraphBuilder "All chunks of file are already processed. If you want to re-process, Please start from begnning")
      else
        .ok (rows.length, chunkId_chunkDoc_list)

/-- One record of the schema-introspection query: the labels of the two
endpoint nodes and the relationship type. -/
structure RelRecord where
  fromLabels : List String
  relType : String
  toLabels : List String
deriving DecidableEq, Repr

/-- The `excluded_labels` set of `main.py get_labels_and_relationtypes`. -/
def excluded_labels : List String :=
  ["Document", "Chunk", "_Bloom_Perspective_", "__Community__", "__Entity__",
   "Session", "Message"]

/-- The `excluded_relationships` set of `main.py
get_labels_and_relationtypes`. -/
def excluded_relationships : List String :=
  ["NEXT_CHUNK", "_Bloom_Perspective_", "FIRST_CHUNK", "SIMILAR",
   "IN_COMMUNITY", "PARENT_COMMUNITY", "NEXT", "LAST_MESSAGE"]

/-- Python `set.add` on an insertion-ordered duplicate-free list. -/
def insertTriple (s : List String) (t : String) : List String :=
  if t ∈ s then s else s ++ [t]

/-- The per-record body of the `get_labels_and_relationtypes` loop:
pick the first non-excluded label of each endpoint (`next(...)`), skip
when either is missing or empty (Python falsiness of `None` and `""`),
apply the `PART_OF`/`HAS_ENTITY` special cases and the general
exclusion test, and otherwise add `from-REL->to` to the set. -/
def labelsStep (triples : List String) (record : RelRecord) : List String :=
  let from_label := record.fromLabels.find? (fun lbl => !excluded_labels.contains lbl)
  let to_label := record.toLabels.find? (fun lbl => !excluded_labels.contains lbl)
  match from_label, to_label with
  | some fl, some tl =>
    if fl = "" ∨ tl = "" then
      triples
    else if record.relType = "PART_OF" then
      if fl = "Chunk" ∧ tl = "Document" then triples
      else insertTriple triples (fl ++ "-" ++ record.relType ++ "->" ++ tl)
    else if record.relType = "HAS_ENTITY" then
      if fl = "Chunk" then triples
      else insertTriple triples (fl ++ "-" ++ record.relType ++ "->" ++ tl)
    else if fl ∈ excluded_labels ∨ tl ∈ excluded_labels
        ∨ record.relType ∈ excluded_relationships then
      triples
    else
      insertTriple triples (fl ++ "-" ++ record.relType ++ "->" ++ tl)
  | _, _ => triples

/-- `main.py get_labels_and_relationtypes` with the raw driver session
abstracted by the list of `(fromLabels, relType, toLabels)` records the
Cypher query returns; the returned list models the value under the
`triplets` key (the Python `set` modelled as an insertion-ordered
duplicate-free list). -/
def get_labels_and_relationtypes (records : List RelRecord) : List String :=
  records.foldl labelsStep []

/-- One row of `get_current_status_document_node`, restricted to the
fields `processing_source` reads. -/
structure StatusRow where
  Status : String
  is_cancelled : Bool
  processed_chunk : Nat
  nodeCount : Nat
  relationshipCount : Nat
deriving DecidableEq, Repr

/-- A state-mutating step of the `processing_source` pipeline performed
after the document-status check (the event trace of the shallow
embedding). -/
inductive PipelineEvent where
  | updateSourceNode : String → Nat → PipelineEvent
  | processBatch : Nat → Nat → PipelineEvent
  | updateCounts : PipelineEvent
  | finalUpdate : String → PipelineEvent
deriving DecidableEq, Repr

/-- The summary dict `processing_source` returns on a completed run
(the empty dict returned under the already-`Processing` guard is
modelled as `none`). -/
structure RespSummary where
  fileName : String
  nodeCount : Nat
  relationshipCount : Nat
  status : String
  model : String
  success_count : Nat
deriving DecidableEq, Repr

/-- The chunk-batch loop of `processing_source` over the batch start
indices: before each batch the live `is_cancelled` flag is re-read
(`cancelledAt i` abstracts that read at batch start `i`); if set, the
loop breaks with job status `Cancelled`, otherwise the batch is
processed (`processing_chunks`, which ends by recomputing the
node/relationship counters).  Returns the final job status and the
emitted events. -/
def batchLoop (n batchSize : Nat) (cancelledAt : Nat → Bool) :
    List Nat → String × List PipelineEvent
  | [] => ("Completed", [])
  | i :: restIdx =>
    if cancelledAt i then
      ("Cancelled", [])
    else
      let r := batchLoop n batchSize cancelledAt restIdx
      (r.1, PipelineEvent.processBatch i (min (i + batchSize) n)
        :: PipelineEvent.updateCounts :: r.2)

/-- `main.py processing_source` from the document-status check onward
(`_get_document_status` result = `statusRows`; the earlier steps -
connection setup, vector-index creation and chunk-list resolution -
happen before the status check and are inputs here).  Faithful control
flow: no status row is an internal error; an already-`Processing`
status short-circuits to the empty dict with no further mutation;
otherwise the source node is written with status `Processing` and the
resumed baseline counts (`_create_processing_source_node` +
`_update_source_node_and_get_chunks`), the batch loop runs, and the
final status and counters are persisted. -/
def processing_source_model (statusRows : List StatusRow)
    (file_name model retry_condition : String) (chunkList : List ChunkPair)
    (batchSize : Nat) (cancelledAt : Nat → Bool) :
    Except RetryError (Option RespSummary × List PipelineEvent) :=
  match statusRows with
  | [] => .error (.llmGraphBuilder "Unable to get the status of document node.")
  | row :: _ =>
    if row.Status = "Processing" then
      .ok (none, [])
    else
      let select_chunks_with_retry :=
        if retry_condition = START_FROM_LAST_PROCESSED_POSITION then
          row.processed_chunk
        else 0
      let node_count :=
        if retry_condition = START_FROM_LAST_PROCESSED_POSITION then
          row.nodeCount
        else 0
      let rel_count :=
        if retry_condition = START_FROM_LAST_PROCESSED_POSITION then
          row.relationshipCount
        else 0
      let r := batchLoop chunkList.length batchSize cancelledAt
        (pyRange 0 chunkList.length batchSize)
      .ok (some
        { fileName := file_name
          nodeCount := node_count
          relationshipCount := rel_count
          status := r.1
          model := model
          success_count := 1 },
        PipelineEvent.updateSourceNode "Processing" select_chunks_with_retry
          :: PipelineEvent.updateCounts
          :: r.2 ++ [PipelineEvent.finalUpdate r.1, PipelineEvent.updateCounts])

/-- Fuel-driven spec-side grouping of a list into consecutive windows
of size `k + 1` (fuel = list length suffices). -/
def chunkGroupsGo (k : Nat) : Nat → List α → List (List α)
  | _, [] => []
  | 0, l => [l]
  | fuel + 1, x :: xs =>
    (x :: xs).take (k + 1) :: chunkGroupsGo k fuel ((x :: xs).drop (k + 1))

/-- Spec-side partition of a list into consecutive groups of `k + 1`
elements, the last group holding the remainder. -/
def chunkGroupsPos (k : Nat) (l : List α) : List (List α) :=
  chunkGroupsGo k l.length l

/-- No two adjacent whitespace characters (internal whitespace runs all
have length one). -/
def noAdjWs : List Char → Bool
  | c :: d :: rest => !(pyIsSpace c && pyIsSpace d) && noAdjWs (d :: rest)
  | _ => true

/-- Every whitespace character is a plain space. -/
def onlyPlainSpaces (l : List Char) : Bool :=
  l.all (fun c => !pyIsSpace c || c = ' ')

/-- The first character, if any, is not whitespace. -/
def headNotWs : List Char → Bool
  | [] => true
  | c :: _ => !pyIsSpace c

/-- The last character, if any, is not whitespace. -/
def lastNotWs : List Char → Bool
  | [] => true
  | c :: rest =>
    match rest with
    | [] => !pyIsSpace c
    | _ :: _ => lastNotWs rest

/-- The keep condition of the node-cleaning loop: type and id non-empty
after stripping whitespace. -/
def keepNode (n : GDNode) : Bool :=
  pyStrip n.type != "" && pyStrip n.id != ""

/-- The transformation applied to a kept node: backticks removed from
its type. -/
def stripNode (n : GDNode) : GDNode :=
  { n with type := removeBackticks n.type }

/-- The keep condition of the relationship-cleaning loop: relationship
type and both endpoints' id and type non-empty after stripping. -/
def keepRel (r : GDRelationship) : Bool :=
  pyStrip r.type != "" && pyStrip r.source.id != "" && pyStrip r.source.type != ""
    && pyStrip r.target.id != "" && pyStrip r.target.type != ""

/-- The transformation applied to a kept relationship: backticks
removed from its type and both endpoint types. -/
def stripRel (r : GDRelationship) : GDRelationship :=
  { source := { r.source with type := removeBackticks r.source.type }
    target := { r.target with type := removeBackticks r.target.type }
    type := removeBackticks r.type }

/-- The consecutive triples of a token list (the groups
`items[i:i+3]` the validation loop inspects; a trailing group shorter
than three contributes none). -/
def tokenTriples : List String → List (String × String × String)
  | source :: relation :: target :: rest =>
    (source, relation, target) :: tokenTriples rest
  | _ => []

/-- Ten stored chunk rows at positions 1 through 10, the concrete
resume scenario of the spec. -/
def sampleChunkRows : List ChunkRow :=
  [⟨"id1", some "text1", 1⟩, ⟨"id2", some "text2", 2⟩, ⟨"id3", some "text3", 3⟩,
   ⟨"id4", some "text4", 4⟩, ⟨"id5", some "text5", 5⟩, ⟨"id6", some "text6", 6⟩,
   ⟨"id7", some "text7", 7⟩, ⟨"id8", some "text8", 8⟩, ⟨"id9", some "text9", 9⟩,
   ⟨"id10", some "text10", 10⟩]

/-- Seven concrete chunks, the concrete combination scenario of the
spec. -/
def sampleSevenChunks : List ChunkPair :=
  [⟨"c1", ⟨"t1", []⟩⟩, ⟨"c2", ⟨"t2", []⟩⟩, ⟨"c3", ⟨"t3", []⟩⟩, ⟨"c4", ⟨"t4", []⟩⟩,
   ⟨"c5", ⟨"t5", []⟩⟩, ⟨"c6", ⟨"t6", []⟩⟩, ⟨"c7", ⟨"t7", []⟩⟩]

/-- A returned schema triplet is well formed: it decomposes as
`from-REL->to` with both labels outside `excluded_labels` and the
relationship type outside `excluded_relationships`. -/
def goodTriplet (t : String) : Prop :=
  ∃ fl rel tl, t = fl ++ "-" ++ rel ++ "->" ++ tl
    ∧ fl ∉ excluded_labels ∧ tl ∉ excluded_labels ∧ rel ∉ excluded_relationships

/-- A save attempt that always raises a transient deadlock error. -/
def alwaysDeadlockSave : Nat → DbOutcome Unit :=
  fun _ => .transientErr "DeadlockDetected"

/-- A query attempt that always raises a transient deadlock error. -/
def alwaysDeadlockQuery : Nat → DbOutcome (List String) :=
  fun _ => .transientErr "DeadlockDetected"



/-! ## Helper lemmas -/

/-- Fuel irrelevance for `pyRangeGo` under a positive step: any fuel of
at least `stop - start` gives the same result. -/
theorem pyRangeGo_congr (stop step : Nat) (hstep : 0 < step) :
    ∀ fuel1 fuel2 start, stop - start ≤ fuel1 → stop - start ≤ fuel2 →
      pyRangeGo stop step fuel1 start = pyRangeGo stop step fuel2 start := by
  intro fuel1
  induction fuel1 with
  | zero =>
    intro fuel2 start h1 _
    cases fuel2 with
    | zero => rfl
    | succ m =>
      simp only [pyRangeGo]
      have : ¬ start < stop := by omega
      simp [this]
  | succ m ih =>
    intro fuel2 start h1 h2
    cases fuel2 with
    | zero =>
      simp only [pyRangeGo]
      have : ¬ start < stop := by omega
      simp [this]
    | succ m2 =>
      simp only [pyRangeGo]
      by_cases h : start < stop
      · simp only [h, if_true]
        have := ih m2 (start + step) (by omega) (by omega)
        rw [this]
      · simp [h]

/-- Unfolding equation for `pyRange` when the start is in range. -/
theorem pyRange_cons (start stop step : Nat) (hstep : 0 < step) (h : start < stop) :
    pyRange start stop step = start :: pyRange (start + step) stop step := by
  unfold pyRange
  have h1 : stop - start = (stop - start - 1) + 1 := by omega
  rw [h1]
  simp only [pyRangeGo, h, if_true]
  congr 1
  exact pyRangeGo_congr stop step hstep _ _ (start + step) (by omega) (by omega)

/-- `pyRange` is empty when the start is out of range. -/
theorem pyRange_nil (start stop step : Nat) (h : ¬ start < stop) :
    pyRange start stop step = [] := by
  unfold pyRange
  have h1 : stop - start = 0 := by omega
  rw [h1]
  rfl

/-- Fuel irrelevance for `chunkGroupsGo`: any fuel of at least the list
length gives the same result. -/
theorem chunkGroupsGo_congr {α : Type} (k : Nat) :
    ∀ fuel1 fuel2 (l : List α), l.length ≤ fuel1 → l.length ≤ fuel2 →
      chunkGroupsGo k fuel1 l = chunkGroupsGo k fuel2 l := by
  intro fuel1
  induction fuel1 with
  | zero =>
    intro fuel2 l h1 _
    have : l = [] := by
      cases l with
      | nil => rfl
      | cons a t => simp at h1
    subst this
    cases fuel2 <;> rfl
  | succ m ih =>
    intro fuel2 l h1 h2
    cases l with
    | nil => cases fuel2 <;> rfl
    | cons x xs =>
      cases fuel2 with
      | zero => simp at h2
      | succ m2 =>
        simp only [chunkGroupsGo]
        have hx1 : xs.length + 1 ≤ m + 1 := by simpa using h1
        have hx2 : xs.length + 1 ≤ m2 + 1 := by simpa using h2
        have hd : (List.drop (k + 1) (x :: xs)).length ≤ m := by
          simp only [List.length_drop, List.length_cons]
          omega
        have hd2 : (List.drop (k + 1) (x :: xs)).length ≤ m2 := by
          simp only [List.length_drop, List.length_cons]
          omega
        rw [ih m2 _ hd hd2]

/-- Unfolding equation for `chunkGroupsPos` on a non-empty list. -/
theorem chunkGroupsPos_cons {α : Type} (k : Nat) (x : α) (xs : List α) :
    chunkGroupsPos k (x :: xs)
      = (x :: xs).take (k + 1) :: chunkGroupsPos k ((x :: xs).drop (k + 1)) := by
  unfold chunkGroupsPos
  simp only [List.length_cons, chunkGroupsGo]
  have hd : (List.drop (k + 1) (x :: xs)).length ≤ xs.length := by
    simp only [List.length_drop, List.length_cons]
    omega
  rw [chunkGroupsGo_congr k xs.length (List.drop (k + 1) (x :: xs)).length _ hd le_rfl]

/-- Fuel irrelevance for `pySubGo`: any fuel of at least the list
length gives the same result. -/
theorem pySubGo_congr (pat repl : List Char) :
    ∀ fuel1 fuel2 (l : List Char), l.length ≤ fuel1 → l.length ≤ fuel2 →
      pySubGo pat repl fuel1 l = pySubGo pat repl fuel2 l := by
  intro fuel1
  induction fuel1 with
  | zero =>
    intro fuel2 l h1 _
    have : l = [] := by
      cases l with
      | nil => rfl
      | cons a t => simp at h1
    subst this
    cases fuel2 <;> rfl
  | succ m ih =>
    intro fuel2 l h1 h2
    cases l with
    | nil => cases fuel2 <;> rfl
    | cons c rest =>
      cases fuel2 with
      | zero => simp at h2
      | succ m2 =>
        simp only [pySubGo]
        have hr1 : rest.length + 1 ≤ m + 1 := by simpa using h1
        have hr2 : rest.length + 1 ≤ m2 + 1 := by simpa using h2
        by_cases h : pat ≠ [] ∧ ((c :: rest).take pat.length).map Char.toLower = pat
        · rw [if_pos h, if_pos h]
          have hp1 : 1 ≤ pat.length := by
            cases hp : pat with
            | nil => exact absurd hp h.1
            | cons p ps => simp
          have hlen : ((c :: rest).drop pat.length).length ≤ m := by
            simp only [List.length_drop, List.length_cons]
            omega
          have hlen2 : ((c :: rest).drop pat.length).length ≤ m2 := by
            simp only [List.length_drop, List.length_cons]
            omega
          rw [ih m2 _ hlen hlen2]
        · rw [if_neg h, if_neg h]
          rw [ih m2 rest (by omega) (by omega)]

/-- Fuel irrelevance for `collapseGo`: any fuel of at least the list
length gives the same result. -/
theorem collapseGo_congr :
    ∀ fuel1 fuel2 (l : List Char), l.length ≤ fuel1 → l.length ≤ fuel2 →
      collapseGo fuel1 l = collapseGo fuel2 l := by
  intro fuel1
  induction fuel1 with
  | zero =>
    intro fuel2 l h1 _
    have : l = [] := by
      cases l with
      | nil => rfl
      | cons a t => simp at h1
    subst this
    cases fuel2 <;> rfl
  | succ m ih =>
    intro fuel2 l h1 h2
    cases l with
    | nil => cases fuel2 <;> rfl
    | cons c rest =>
      cases fuel2 with
      | zero => simp at h2
      | succ m2 =>
        simp only [collapseGo]
        have hr1 : rest.length + 1 ≤ m + 1 := by simpa using h1
        have hr2 : rest.length + 1 ≤ m2 + 1 := by simpa using h2
        have hd : (rest.dropWhile pyIsSpace).length ≤ rest.length :=
          (List.dropWhile_sublist pyIsSpace).length_le
        by_cases h : pyIsSpace c = true
        · rw [if_pos h, if_pos h]
          rw [ih m2 _ (by omega) (by omega)]
        · rw [if_neg h, if_neg h]
          rw [ih m2 rest (by omega) (by omega)]

/-- `retryGo` under an attempt that always raises a deadlock: all
`n` remaining attempts are made, each followed by a sleep of `delay`,
and the loop ends in the `RuntimeError`. -/
theorem retryGo_always_deadlock {α : Type} (attempt : Nat → DbOutcome α)
    (delay : Nat) (failMsg : String)
    (h : ∀ i, ∃ msg, attempt i = .transientErr msg
      ∧ pyInStr "DeadlockDetected" msg = true) :
    ∀ n idx, retryGo attempt delay failMsg n idx
      = (.error (.runtime failMsg), n, List.replicate n delay) := by
  intro n
  induction n with
  | zero => intro idx; rfl
  | succ m ih =>
    intro idx
    obtain ⟨msg, hmsg, hdl⟩ := h idx
    simp only [retryGo, hmsg, hdl, if_true, ih (idx + 1)]
    simp [List.replicate_succ]

/-! ## Claim theorems -/

/-- Claim C3 (code bug): in the retry branch of
`get_chunkId_chunkDoc_list`, when the stored-chunk query returns no
rows at all, the guard `chunks[0]['text'] is None or
chunks[0]['text']=="" or not chunks` evaluates `chunks[0]` first and
raises a Python `IndexError`, not the `LLMGraphBuilderException` the
dead `not chunks` clause was meant to produce. -/
theorem c3_empty_rows_raise_index_error (retry_condition : String)
    (q1 q2 : List Nat) :
    get_chunkId_chunkDoc_list_retry [] retry_condition q1 q2
      = .error .indexError := rfl

/-- Claim C7: when the fetched document status is `Processing`,
`processing_source` short-circuits: it returns the empty result dict
and performs no state mutation after the status check (no status
transition, no chunk batch, no counter update). -/
theorem c7_already_processing_guard (row : StatusRow) (rows : List StatusRow)
    (file_name model retry_condition : String) (chunkList : List ChunkPair)
    (batchSize : Nat) (cancelledAt : Nat → Bool)
    (h : row.Status = "Processing") :
    processing_source_model (row :: rows) file_name model retry_condition
      chunkList batchSize cancelledAt = .ok (none, []) := by
  simp [processing_source_model, h]

/-- Witness for C7 at a concrete `Processing` status row. -/
theorem c7_already_processing_guard_witness :
    (({ Status := "Processing", is_cancelled := false, processed_chunk := 0,
        nodeCount := 0, relationshipCount := 0 } : StatusRow).Status = "Processing")
  ∧ processing_source_model
      [{ Status := "Processing", is_cancelled := false, processed_chunk := 0,
         nodeCount := 0, relationshipCount := 0 }]
      "f.pdf" "m" "" sampleSevenChunks 10 (fun _ => false) = .ok (none, []) :=
  ⟨rfl, c7_already_processing_guard
    { Status := "Processing", is_cancelled := false, processed_chunk := 0,
      nodeCount := 0, relationshipCount := 0 }
    [] "f.pdf" "m" "" sampleSevenChunks 10 (fun _ => false) rfl⟩

/-- Claim C8: under an always-deadlocking backend,
`save_graphDocuments_in_neo4j` makes exactly 3 attempts with 1-second
delays and fails with the internal `RuntimeError`, and
`execute_graph_query` makes exactly 3 attempts with 2-second delays and
fails with its internal `RuntimeError`; a non-deadlock error from
either loop propagates after exactly one attempt with no sleep. -/
theorem c8_deadlock_retry_bound
    (attemptS : Nat → DbOutcome Unit) (attemptQ : Nat → DbOutcome (List String))
    (hS : ∀ i, ∃ msg, attemptS i = .transientErr msg
      ∧ pyInStr "DeadlockDetected" msg = true)
    (hQ : ∀ i, ∃ msg, attemptQ i = .transientErr msg
      ∧ pyInStr "DeadlockDetected" msg = true) :
    save_graphDocuments_in_neo4j attemptS DEFAULT_MAX_RETRIES DEFAULT_RETRY_DELAY
      = (.error (.runtime "Failed to save graph documents after multiple retries due to deadlock."),
         3, [1, 1, 1])
  ∧ execute_graph_query attemptQ DEFAULT_MAX_RETRIES DEFAULT_QUERY_RETRY_DELAY
      = (.error (.runtime "Query execution failed after multiple retries due to deadlock."),
         3, [2, 2, 2])
  ∧ (∀ (attempt2 : Nat → DbOutcome Unit) msg, attempt2 0 = .transientErr msg →
      pyInStr "DeadlockDetected" msg = false →
      save_graphDocuments_in_neo4j attempt2 DEFAULT_MAX_RETRIES DEFAULT_RETRY_DELAY
        = (.error (.transient msg), 1, []))
  ∧ (∀ (attempt2 : Nat → DbOutcome Unit) msg, attempt2 0 = .otherErr msg →
      save_graphDocuments_in_neo4j attempt2 DEFAULT_MAX_RETRIES DEFAULT_RETRY_DELAY
        = (.error (.other msg), 1, []))
  ∧ (∀ (attempt2 : Nat → DbOutcome (List String)) msg, attempt2 0 = .transientErr msg →
      pyInStr "DeadlockDetected" msg = false →
      execute_graph_query attempt2 DEFAULT_MAX_RETRIES DEFAULT_QUERY_RETRY_DELAY
        = (.error (.transient msg), 1, []))
  ∧ (∀ (attempt2 : Nat → DbOutcome (List String)) msg, attempt2 0 = .otherErr msg →
      execute_graph_query attempt2 DEFAULT_MAX_RETRIES DEFAULT_QUERY_RETRY_DELAY
        = (.error (.other msg), 1, [])) := by
  refine ⟨?_, ?_, ?_, ?_, ?_, ?_⟩
  · rw [save_graphDocuments_in_neo4j, retryGo_always_deadlock attemptS _ _ hS]
    rfl
  · rw [execute_graph_query, retryGo_always_deadlock attemptQ _ _ hQ]
    rfl
  · intro attempt2 msg hmsg hnd
    simp [save_graphDocuments_in_neo4j, DEFAULT_MAX_RETRIES, retryGo, hmsg, hnd]
  · intro attempt2 msg hmsg
    simp [save_graphDocuments_in_neo4j, DEFAULT_MAX_RETRIES, retryGo, hmsg]
  · intro attempt2 msg hmsg hnd
    simp [execute_graph_query, DEFAULT_MAX_RETRIES, retryGo, hmsg, hnd]
  · intro attempt2 msg hmsg
    simp [execute_graph_query, DEFAULT_MAX_RETRIES, retryGo, hmsg]

/-- Witness for C8 at concrete always-deadlocking and non-deadlock
attempt functions. -/
theorem c8_deadlock_retry_bound_witness :
    (∀ i, ∃ msg, alwaysDeadlockSave i = .transientErr msg
      ∧ pyInStr "DeadlockDetected" msg = true)
  ∧ save_graphDocuments_in_neo4j alwaysDeadlockSave DEFAULT_MAX_RETRIES DEFAULT_RETRY_DELAY
      = (.error (.runtime "Failed to save graph documents after multiple retries due to deadlock."),
         3, [1, 1, 1]) := by
  have hS : ∀ i, ∃ msg, alwaysDeadlockSave i = .transientErr msg
      ∧ pyInStr "DeadlockDetected" msg = true :=
    fun _ => ⟨"DeadlockDetected", rfl, by decide⟩
  have hQ : ∀ i, ∃ msg, alwaysDeadlockQuery i = .transientErr msg
      ∧ pyInStr "DeadlockDetected" msg = true :=
    fun _ => ⟨"DeadlockDetected", rfl, by decide⟩
  exact ⟨hS, (c8_deadlock_retry_bound alwaysDeadlockSave alwaysDeadlockQuery hS hQ).1⟩

/-- Claim C2: resuming with `start_from_last_processed_position` on a
non-empty stored chunk list: when the stored position `p` is strictly
below the chunk count, the function returns the total chunk count and
the entries built from rows `p` onward (1-indexed, original order);
when `p` equals the chunk count, the resume position is instead taken
from the last-processed-chunk-without-entity query. -/
theorem c2_resume_from_last_position (r0 : ChunkRow) (rest : List ChunkRow)
    (p : Nat) (q2 : List Nat) (htext : r0.text ≠ none ∧ r0.text ≠ some "") :
    (p < (r0 :: rest).length →
      get_chunkId_chunkDoc_list_retry (r0 :: rest)
        START_FROM_LAST_PROCESSED_POSITION [p] q2
        = .ok ((r0 :: rest).length, ((r0 :: rest).drop (p - 1)).map mkChunkEntry))
  ∧ (p = (r0 :: rest).length → ∀ p2 q2rest, q2 = p2 :: q2rest →
      get_chunkId_chunkDoc_list_retry (r0 :: rest)
        START_FROM_LAST_PROCESSED_POSITION [p] q2
        = .ok ((r0 :: rest).length, ((r0 :: rest).drop (p2 - 1)).map mkChunkEntry)) := by
  have hguard : ¬ (r0.text = none ∨ r0.text = some "") := by
    rintro (h | h)
    · exact htext.1 h
    · exact htext.2 h
  have hml : (List.map mkChunkEntry (r0 :: rest)).length = (r0 :: rest).length := by
    simp
  constructor
  · intro hp
    simp only [get_chunkId_chunkDoc_list_retry]
    rw [if_neg hguard, if_pos trivial, if_pos (by rw [hml]; exact hp), List.map_drop]
  · intro hp p2 q2rest hq2
    subst hq2
    simp only [get_chunkId_chunkDoc_list_retry]
    rw [if_neg hguard, if_pos trivial, if_neg (by rw [hml]; omega),
      if_pos (by rw [hml]; exact hp), List.map_drop]

/-- Witness for C2: ten stored chunks at positions 1..10; a stored
position of 7 resumes with chunks 7..10, and a stored position of 10
falls back to the without-entity query result 8, resuming with chunks
8..10. -/
theorem c2_resume_from_last_position_witness :
    (7 < sampleChunkRows.length
      ∧ get_chunkId_chunkDoc_list_retry sampleChunkRows
          START_FROM_LAST_PROCESSED_POSITION [7] []
          = .ok (10, (sampleChunkRows.drop 6).map mkChunkEntry))
  ∧ (10 = sampleChunkRows.length
      ∧ get_chunkId_chunkDoc_list_retry sampleChunkRows
          START_FROM_LAST_PROCESSED_POSITION [10] [8]
          = .ok (10, (sampleChunkRows.drop 7).map mkChunkEntry)) := by
  constructor
  · exact ⟨by decide,
      (c2_resume_from_last_position ⟨"id1", some "text1", 1⟩
        [⟨"id2", some "text2", 2⟩, ⟨"id3", some "text3", 3⟩,
         ⟨"id4", some "text4", 4⟩, ⟨"id5", some "text5", 5⟩,
         ⟨"id6", some "text6", 6⟩, ⟨"id7", some "text7", 7⟩,
         ⟨"id8", some "text8", 8⟩, ⟨"id9", some "text9", 9⟩,
         ⟨"id10", some "text10", 10⟩] 7 []
        ⟨by decide, by decide⟩).1 (by decide)⟩
  · exact ⟨by decide,
      (c2_resume_from_last_position ⟨"id1", some "text1", 1⟩
        [⟨"id2", some "text2", 2⟩, ⟨"id3", some "text3", 3⟩,
         ⟨"id4", some "text4", 4⟩, ⟨"id5", some "text5", 5⟩,
         ⟨"id6", some "text6", 6⟩, ⟨"id7", some "text7", 7⟩,
         ⟨"id8", some "text8", 8⟩, ⟨"id9", some "text9", 9⟩,
         ⟨"id10", some "text10", 10⟩] 10 [8]
        ⟨by decide, by decide⟩).2 (by decide) 8 [] rfl⟩

/-- The node-cleaning loop is the filter of the keep condition followed
by the backtick-stripping map, in order. -/
theorem cleanedNodes_eq_filter_map (l : List GDNode) :
    cleanedNodes l = (l.filter keepNode).map stripNode := by
  induction l with
  | nil => rfl
  | cons n rest ih =>
    by_cases h : pyStrip n.type ≠ "" ∧ pyStrip n.id ≠ ""
    · have hk : keepNode n = true := by
        simp only [keepNode, Bool.and_eq_true, bne_iff_ne, ne_eq]
        exact ⟨h.1, h.2⟩
      simp only [cleanedNodes, if_pos h, List.filter_cons, hk, if_true, List.map_cons, ih]
      rfl
    · have hk : keepNode n = false := by
        simp only [keepNode, Bool.and_eq_true, bne_iff_ne, ne_eq]
        by_contra hcon
        simp only [Bool.not_eq_false, Bool.and_eq_true, bne_iff_ne, ne_eq] at hcon
        exact h hcon
      simp only [cleanedNodes, if_neg h, List.filter_cons, hk, ih]
      rfl

/-- The relationship-cleaning loop is the filter of the keep condition
followed by the backtick-stripping map, in order. -/
theorem cleanedRelationships_eq_filter_map (l : List GDRelationship) :
    cleanedRelationships l = (l.filter keepRel).map stripRel := by
  induction l with
  | nil => rfl
  | cons r rest ih =>
    by_cases h : pyStrip r.type ≠ "" ∧ pyStrip r.source.id ≠ "" ∧ pyStrip r.source.type ≠ ""
        ∧ pyStrip r.target.id ≠ "" ∧ pyStrip r.target.type ≠ ""
    · have hk : keepRel r = true := by
        simp only [keepRel, Bool.and_eq_true, bne_iff_ne, ne_eq]
        exact ⟨⟨⟨⟨h.1, h.2.1⟩, h.2.2.1⟩, h.2.2.2.1⟩, h.2.2.2.2⟩
      simp only [cleanedRelationships, if_pos h, List.filter_cons, hk, if_true,
        List.map_cons, ih]
      rfl
    · have hk : keepRel r = false := by
        simp only [keepRel, Bool.and_eq_true, bne_iff_ne, ne_eq]
        by_contra hcon
        simp only [Bool.not_eq_false, Bool.and_eq_true, bne_iff_ne, ne_eq] at hcon
        exact h ⟨hcon.1.1.1.1, hcon.1.1.1.2, hcon.1.1.2, hcon.1.2, hcon.2⟩
      simp only [cleanedRelationships, if_neg h, List.filter_cons, hk, ih]
      rfl

/-- Claim C4: cleaning keeps an entity iff its type and id are
non-empty after whitespace stripping, keeps a relationship iff its type
and both endpoints' type and id are non-empty, strips backticks from
every surviving type name, and preserves relative order (the
filter-then-map characterization); on the spec's concrete document the
result is one `Person` entity and no relationships. -/
theorem c4_backtick_empty_field_filtering (l : List GraphDocument) :
    handle_backticks_nodes_relationship_id_type l
      = l.map (fun gd =>
          { gd with
            nodes := (gd.nodes.filter keepNode).map stripNode
            relationships := (gd.relationships.filter keepRel).map stripRel })
  ∧ handle_backticks_nodes_relationship_id_type
      [{ nodes := [{ id := "Alice", type := "`Person`" }, { id := "", type := "Company" }]
         relationships := [{ source := { id := "", type := "Company" }
                             target := { id := "Alice", type := "`Person`" }
                             type := "WORKS_AT" }]
         source := { page_content := "", metadata := [] } }]
      = [{ nodes := [{ id := "Alice", type := "Person" }]
           relationships := []
           source := { page_content := "", metadata := [] } }] := by
  constructor
  · unfold handle_backticks_nodes_relationship_id_type
    apply List.map_congr_left
    intro gd _
    rw [cleanedNodes_eq_filter_map, cleanedRelationships_eq_filter_map]
  · rfl

/-- `get_chunk_and_graphDocument` returns nothing when no document's
source metadata has the `combined_chunk_ids` key. -/
theorem get_chunk_and_graphDocument_eq_nil (gds : List GraphDocument)
    (h : ∀ gd ∈ gds, metaLookup gd.source.metadata "combined_chunk_ids" = none) :
    get_chunk_and_graphDocument gds = [] := by
  induction gds with
  | nil => rfl
  | cons gd rest ih =>
    simp only [get_chunk_and_graphDocument]
    rw [h gd (List.mem_cons_self gd rest)]
    exact ih (fun x hx => h x (List.mem_cons_of_mem gd hx))

/-- Documents produced by `get_chunk_id_as_doc_metadata` carry their
ids under the key `chunk_id`, so the `combined_chunk_ids` lookup on
them fails. -/
theorem chunk_id_metadata_lookup_none (l : List ChunkPair) :
    ∀ d ∈ get_chunk_id_as_doc_metadata l,
      metaLookup d.metadata "combined_chunk_ids" = none := by
  intro d hd
  obtain ⟨cp, _, rfl⟩ := List.mem_map.mp hd
  show metaLookup [("chunk_id", MetaVal.ids [cp.chunk_id])] "combined_chunk_ids" = none
  unfold metaLookup
  rw [if_neg (by decide)]
  rfl

/-- Claim C10: `get_chunk_and_graphDocument` emits one
`{graph_doc, chunk_id}` pair per element of each document's
`combined_chunk_ids` metadata list, in order; a graph document whose
source metadata lacks that key contributes no pairs; in particular the
output of `get_chunk_id_as_doc_metadata` (which stores ids under
`chunk_id`) yields no pairs at all, whatever graph documents the LLM
builds on top of it. -/
theorem c10_chunk_graphdoc_mapping :
    (∀ gds : List GraphDocument,
      get_chunk_and_graphDocument gds
        = gds.flatMap (fun gd =>
            match metaLookup gd.source.metadata "combined_chunk_ids" with
            | some v => v.toIds.map (fun chunk_id => (gd, chunk_id))
            | none => []))
  ∧ (∀ gds : List GraphDocument,
      (∀ gd ∈ gds, metaLookup gd.source.metadata "combined_chunk_ids" = none) →
      get_chunk_and_graphDocument gds = [])
  ∧ (∀ l : List ChunkPair, ∀ d ∈ get_chunk_id_as_doc_metadata l,
      metaLookup d.metadata "combined_chunk_ids" = none)
  ∧ (∀ (l : List ChunkPair) (f : PyDocument → GraphDocument),
      (∀ d, (f d).source = d) →
      get_chunk_and_graphDocument ((get_chunk_id_as_doc_metadata l).map f) = []) := by
  refine ⟨?_, get_chunk_and_graphDocument_eq_nil, chunk_id_metadata_lookup_none, ?_⟩
  · intro gds
    induction gds with
    | nil => rfl
    | cons gd rest ih =>
      simp only [get_chunk_and_graphDocument, List.flatMap_cons, ih]
  · intro l f hf
    apply get_chunk_and_graphDocument_eq_nil
    intro gd hgd
    obtain ⟨d, hd, rfl⟩ := List.mem_map.mp hgd
    rw [hf d]
    exact chunk_id_metadata_lookup_none l d hd

/-- Witness for C10: a concrete constructor attaching each document as
the graph document's source satisfies the hypothesis, and the mapping
over `chunk_id`-tagged documents is empty. -/
theorem c10_chunk_graphdoc_mapping_witness :
    (∀ d : PyDocument, (GraphDocument.mk [] [] d).source = d)
  ∧ get_chunk_and_graphDocument
      ((get_chunk_id_as_doc_metadata sampleSevenChunks).map (GraphDocument.mk [] []))
      = [] :=
  ⟨fun _ => rfl,
    c10_chunk_graphdoc_mapping.2.2.2 sampleSevenChunks (GraphDocument.mk [] [])
      (fun _ => rfl)⟩

/-- Inserting a well-formed triplet into a well-formed duplicate-free
set keeps it well formed and duplicate-free. -/
theorem insertTriple_inv (acc : List String) (t : String)
    (h1 : ∀ x ∈ acc, goodTriplet x) (h2 : acc.Nodup) (ht : goodTriplet t) :
    (∀ x ∈ insertTriple acc t, goodTriplet x) ∧ (insertTriple acc t).Nodup := by
  unfold insertTriple
  split_ifs with hmem
  · exact ⟨h1, h2⟩
  · constructor
    · intro x hx
      rcases List.mem_append.mp hx with hx | hx
      · exact h1 x hx
      · have : x = t := by simpa using hx
        subst this
        exact ht
    · rw [List.nodup_append]
      refine ⟨h2, List.nodup_singleton t, ?_⟩
      intro x hx hx2
      have : x = t := by simpa using hx2
      subst this
      exact hmem hx

/-- One step of the schema-introspection fold preserves the invariant:
every accumulated triplet is well formed and the set is
duplicate-free. -/
theorem labelsStep_inv (acc : List String) (record : RelRecord)
    (h1 : ∀ x ∈ acc, goodTriplet x) (h2 : acc.Nodup) :
    (∀ x ∈ labelsStep acc record, goodTriplet x) ∧ (labelsStep acc record).Nodup := by
  unfold labelsStep
  cases hf : record.fromLabels.find? (fun lbl => !excluded_labels.contains lbl) with
  | none => exact ⟨h1, h2⟩
  | some fl =>
    cases hg : record.toLabels.find? (fun lbl => !excluded_labels.contains lbl) with
    | none => exact ⟨h1, h2⟩
    | some tl =>
      have hfl : fl ∉ excluded_labels := by
        have := List.find?_some hf
        simpa using this
      have htl : tl ∉ excluded_labels := by
        have := List.find?_some hg
        simpa using this
      dsimp only
      by_cases hemp : fl = "" ∨ tl = ""
      · rw [if_pos hemp]
        exact ⟨h1, h2⟩
      · rw [if_neg hemp]
        by_cases hpart : record.relType = "PART_OF"
        · rw [if_pos hpart]
          by_cases hcd : fl = "Chunk" ∧ tl = "Document"
          · rw [if_pos hcd]
            exact ⟨h1, h2⟩
          · rw [if_neg hcd]
            exact insertTriple_inv acc _ h1 h2
              ⟨fl, record.relType, tl, rfl, hfl, htl, by rw [hpart]; decide⟩
        · rw [if_neg hpart]
          by_cases hhas : record.relType = "HAS_ENTITY"
          · rw [if_pos hhas]
            by_cases hch : fl = "Chunk"
            · rw [if_pos hch]
              exact ⟨h1, h2⟩
            · rw [if_neg hch]
              exact insertTriple_inv acc _ h1 h2
                ⟨fl, record.relType, tl, rfl, hfl, htl, by rw [hhas]; decide⟩
          · rw [if_neg hhas]
            by_cases hexcl : fl ∈ excluded_labels ∨ tl ∈ excluded_labels
                ∨ record.relType ∈ excluded_relationships
            · rw [if_pos hexcl]
              exact ⟨h1, h2⟩
            · rw [if_neg hexcl]
              push_neg at hexcl
              exact insertTriple_inv acc _ h1 h2
                ⟨fl, record.relType, tl, rfl, hfl, htl, hexcl.2.2⟩

/-- The schema-introspection fold preserves the invariant from any
well-formed accumulator. -/
theorem foldl_labelsStep_inv (records : List RelRecord) :
    ∀ acc, (∀ x ∈ acc, goodTriplet x) → acc.Nodup →
      (∀ x ∈ records.foldl labelsStep acc, goodTriplet x)
        ∧ (records.foldl labelsStep acc).Nodup := by
  induction records with
  | nil => intro acc h1 h2; exact ⟨h1, h2⟩
  | cons r rs ih =>
    intro acc h1 h2
    simp only [List.foldl_cons]
    obtain ⟨a, b⟩ := labelsStep_inv acc r h1 h2
    exact ih _ a b

/-- Claim C9: on a graph holding exactly the edges
`Chunk-PART_OF->Document`, `Chunk-HAS_ENTITY->Person` and
`Person-WORKS_AT->Company`, schema introspection returns exactly the
triplet `Person-WORKS_AT->Company`; in general every returned triplet
decomposes as `from-REL->to` with both labels outside the excluded
label set and the relationship type outside the excluded relationship
set, and the result is duplicate-free. -/
theorem c9_schema_introspection_exclusion (records : List RelRecord) :
    get_labels_and_relationtypes
      [{ fromLabels := ["Chunk"], relType := "PART_OF", toLabels := ["Document"] },
       { fromLabels := ["Chunk"], relType := "HAS_ENTITY", toLabels := ["Person"] },
       { fromLabels := ["Person"], relType := "WORKS_AT", toLabels := ["Company"] }]
      = ["Person-WORKS_AT->Company"]
  ∧ (∀ t ∈ get_labels_and_relationtypes records, goodTriplet t)
  ∧ (get_labels_and_relationtypes records).Nodup := by
  refine ⟨by rfl, ?_, ?_⟩
  · exact (foldl_labelsStep_inv records [] (by simp) List.nodup_nil).1
  · exact (foldl_labelsStep_inv records [] (by simp) List.nodup_nil).2

/-- A triple of the validation loop whose source or target is not an
allowed node makes `validateTriples` fail with the domain error. -/
theorem validateTriples_error_of_bad (allowed : List String) :
    ∀ items s r t, (s, r, t) ∈ tokenTriples items →
      (s ∉ allowed ∨ t ∉ allowed) →
      ∃ msg, validateTriples allowed items = .error msg := by
  suffices H : ∀ n items, items.length ≤ n → ∀ s r t, (s, r, t) ∈ tokenTriples items →
      (s ∉ allowed ∨ t ∉ allowed) → ∃ msg, validateTriples allowed items = .error msg by
    exact fun items => H items.length items le_rfl
  intro n
  induction n with
  | zero =>
    intro items hl s r t hmem hbad
    cases items with
    | nil => simp [tokenTriples] at hmem
    | cons a rest => simp at hl
  | succ m ih =>
    intro items hl s r t hmem hbad
    match items with
    | [] => simp [tokenTriples] at hmem
    | [a] => simp [tokenTriples] at hmem
    | [a, b] => simp [tokenTriples] at hmem
    | a :: b :: c :: rest =>
      simp only [tokenTriples, List.mem_cons] at hmem
      by_cases hok : a ∈ allowed ∧ c ∈ allowed
      · rcases hmem with heq | hmem
        · simp only [Prod.mk.injEq] at heq
          obtain ⟨rfl, rfl, rfl⟩ := heq
          rcases hbad with hb | hb
          · exact absurd hok.1 hb
          · exact absurd hok.2 hb
        · obtain ⟨msg, hmsg⟩ := ih rest (by simp at hl; omega) s r t hmem hbad
          refine ⟨msg, ?_⟩
          simp only [validateTriples, if_pos hok, hmsg]
          rfl
      · refine ⟨"Invalid relationship (" ++ a ++ ", " ++ b ++ ", " ++ c
          ++ "): source or target not in allowedNodes", ?_⟩
        simp only [validateTriples, if_neg hok]

/-- Claim C1: a comma-separated `allowedRelationship` whose trimmed,
non-empty token count is not a multiple of 3 makes `get_graph_from_llm`
fail with the domain error before the extraction call is reached (an
`.ok` result is what models reaching extraction), as does any triple
whose source or target type is absent from the parsed allowed-node
set; in particular `allowedNodes = "Person,Company"` with
`allowedRelationship = "Person,WORKS_AT,Org"` fails. -/
theorem c1_allowed_relationship_validation (getLlm : Except String Unit)
    (l : List ChunkPair) (K : Nat) (aN aR : String) :
    ((trimmedTokens aR ',').length % 3 ≠ 0 →
      ∃ msg, get_graph_from_llm getLlm l aN aR K = .error msg)
  ∧ (∀ s r t, (s, r, t) ∈ tokenTriples (trimmedTokens aR ',') →
      (s ∉ trimmedTokens aN ',' ∨ t ∉ trimmedTokens aN ',') →
      ∃ msg, get_graph_from_llm getLlm l aN aR K = .error msg)
  ∧ (∃ msg, get_graph_from_llm getLlm l "Person,Company" "Person,WORKS_AT,Org" K
      = .error msg) := by
  have part1 : ∀ aN2 aR2 : String, (trimmedTokens aR2 ',').length % 3 ≠ 0 →
      ∃ msg, get_graph_from_llm getLlm l aN2 aR2 K = .error msg := by
    intro aN2 aR2 hmod
    have haR : aR2 ≠ "" := by
      intro h
      subst h
      exact hmod (by decide)
    cases getLlm with
    | error e => exact ⟨_, rfl⟩
    | ok u =>
      cases hcomb : get_combined_chunks l K with
      | error e =>
        simp only [get_graph_from_llm, hcomb]
        exact ⟨_, rfl⟩
      | ok combined =>
        simp only [get_graph_from_llm, hcomb]
        rw [if_pos haR, if_pos hmod]
        exact ⟨_, rfl⟩
  have part2 : ∀ aN2 aR2 s r t, (s, r, t) ∈ tokenTriples (trimmedTokens aR2 ',') →
      (s ∉ trimmedTokens aN2 ',' ∨ t ∉ trimmedTokens aN2 ',') →
      ∃ msg, get_graph_from_llm getLlm l aN2 aR2 K = .error msg := by
    intro aN2 aR2 s r t hmem hbad
    have haR : aR2 ≠ "" := by
      intro h
      subst h
      rw [show trimmedTokens "" ',' = [] from rfl] at hmem
      simp [tokenTriples] at hmem
    by_cases hmod : (trimmedTokens aR2 ',').length % 3 ≠ 0
    · exact part1 aN2 aR2 hmod
    · cases getLlm with
      | error e => exact ⟨_, rfl⟩
      | ok u =>
        cases hcomb : get_combined_chunks l K with
        | error e =>
          simp only [get_graph_from_llm, hcomb]
          exact ⟨_, rfl⟩
        | ok combined =>
          obtain ⟨msg, hmsg⟩ := validateTriples_error_of_bad (trimmedTokens aN2 ',')
            (trimmedTokens aR2 ',') s r t hmem hbad
          simp only [get_graph_from_llm, hcomb]
          rw [if_pos haR, if_neg hmod, hmsg]
          exact ⟨_, rfl⟩
  refine ⟨part1 aN aR, part2 aN aR, ?_⟩
  exact part2 "Person,Company" "Person,WORKS_AT,Org" "Person" "WORKS_AT" "Org"
    (by decide) (Or.inr (by decide))

/-- Witness for C1 at the concrete inputs of the spec. -/
theorem c1_allowed_relationship_validation_witness :
    ((trimmedTokens "Person,WORKS_AT" ',').length % 3 ≠ 0
      ∧ ∃ msg, get_graph_from_llm (.ok ()) [] "Person,Company" "Person,WORKS_AT" 1
          = .error msg)
  ∧ (("Person", "WORKS_AT", "Org") ∈ tokenTriples (trimmedTokens "Person,WORKS_AT,Org" ',')
      ∧ "Org" ∉ trimmedTokens "Person,Company" ','
      ∧ ∃ msg, get_graph_from_llm (.ok ()) [] "Person,Company" "Person,WORKS_AT,Org" 1
          = .error msg) := by
  refine ⟨⟨by decide, ?_⟩, ⟨by decide, by decide, ?_⟩⟩
  · exact (c1_allowed_relationship_validation (.ok ()) [] 1 "Person,Company"
      "Person,WORKS_AT").1 (by decide)
  · exact (c1_allowed_relationship_validation (.ok ()) [] 1 "Person,Company"
      "Person,WORKS_AT,Org").2.1 "Person" "WORKS_AT" "Org" (by decide)
      (Or.inr (by decide))

/-- Shifting both endpoints of a Python range shifts its elements. -/
theorem pyRange_add (step d : Nat) (hstep : 0 < step) :
    ∀ stop s, pyRange (s + d) (stop + d) step = (pyRange s stop step).map (· + d) := by
  intro stop
  suffices H : ∀ n s, stop - s ≤ n →
      pyRange (s + d) (stop + d) step = (pyRange s stop step).map (· + d) by
    exact fun s => H (stop - s) s le_rfl
  intro n
  induction n with
  | zero =>
    intro s hn
    have h1 : ¬ s < stop := by omega
    have h2 : ¬ s + d < stop + d := by omega
    rw [pyRange_nil _ _ _ h1, pyRange_nil _ _ _ h2]
    rfl
  | succ m ih =>
    intro s hn
    by_cases h : s < stop
    · rw [pyRange_cons _ _ _ hstep h, pyRange_cons _ _ _ hstep (by omega)]
      simp only [List.map_cons]
      have heq : s + d + step = s + step + d := by omega
      rw [heq, ih (s + step) (by omega)]
    · rw [pyRange_nil _ _ _ h, pyRange_nil _ _ _ (by omega)]
      rfl

/-- A range starting at `step` is the shifted range starting at 0. -/
theorem pyRange_shift (step : Nat) (hstep : 0 < step) (stop : Nat) :
    pyRange step stop step = (pyRange 0 (stop - step) step).map (· + step) := by
  by_cases hle : step ≤ stop
  · have h2 : (stop - step) + step = stop := by omega
    have := pyRange_add step step hstep (stop - step) 0
    rw [Nat.zero_add, h2] at this
    exact this
  · rw [pyRange_nil _ _ _ (by omega), pyRange_nil _ _ _ (by omega)]
    rfl

/-- The slice comprehension of `get_combined_chunks` (one slice
`l[i : i + K]` per index of `range(0, len(l), K)`) computes exactly the
consecutive-group partition of the list. -/
theorem pyRange_slices_eq_groups {β : Type} (k : Nat) (g : List ChunkPair → β) :
    ∀ l : List ChunkPair,
      (pyRange 0 l.length (k + 1)).map (fun i => g ((l.drop i).take (k + 1)))
        = (chunkGroupsPos k l).map g := by
  suffices H : ∀ n l, List.length l ≤ n →
      (pyRange 0 l.length (k + 1)).map (fun i => g ((l.drop i).take (k + 1)))
        = (chunkGroupsPos k l).map g by
    exact fun l => H l.length l le_rfl
  intro n
  induction n with
  | zero =>
    intro l hn
    have : l = [] := by
      cases l with
      | nil => rfl
      | cons a t => simp at hn
    subst this
    rfl
  | succ m ih =>
    intro l hn
    cases l with
    | nil => rfl
    | cons x xs =>
      rw [chunkGroupsPos_cons]
      rw [pyRange_cons 0 (x :: xs).length (k + 1) (by omega) (by simp)]
      simp only [List.map_cons, List.drop_zero, Nat.zero_add]
      congr 1
      rw [pyRange_shift (k + 1) (by omega) (x :: xs).length, List.map_map]
      have hlen : ((x :: xs).drop (k + 1)).length = (x :: xs).length - (k + 1) := by
        simp only [List.length_drop]
      have hn2 : xs.length + 1 ≤ m + 1 := by simpa using hn
      have hbound : ((x :: xs).drop (k + 1)).length ≤ m := by
        rw [hlen]
        simp only [List.length_cons]
        omega
      have hih := ih ((x :: xs).drop (k + 1)) hbound
      rw [hlen] at hih
      rw [← hih]
      apply List.map_congr_left
      intro i _
      simp only [Function.comp_apply, List.drop_drop]
      have hx : i + (k + 1) = (k + 1) + i := by omega
      rw [hx]

/-- Zipping two maps of the same list is a single map (the Python loop
indexing two equal-length comprehensions in parallel). -/
theorem zipWith_map_same {α β γ δ : Type} (f : β → γ → δ) (g1 : α → β) (g2 : α → γ) :
    ∀ l : List α, List.zipWith f (l.map g1) (l.map g2) = l.map (fun a => f (g1 a) (g2 a)) := by
  intro l
  induction l with
  | nil => rfl
  | cons a t ih => simp [ih]

/-- The consecutive-group partition has exactly `ceil(n / K)` groups
(`(n + K - 1) / K` in natural division, with `K = k + 1`). -/
theorem chunkGroupsPos_length {α : Type} (k : Nat) :
    ∀ l : List α, (chunkGroupsPos k l).length = (l.length + k) / (k + 1) := by
  suffices H : ∀ n (l : List α), l.length ≤ n →
      (chunkGroupsPos k l).length = (l.length + k) / (k + 1) by
    exact fun l => H l.length l le_rfl
  intro n
  induction n with
  | zero =>
    intro l hn
    have : l = [] := by
      cases l with
      | nil => rfl
      | cons a t => simp at hn
    subst this
    simp [chunkGroupsPos, chunkGroupsGo, Nat.div_eq_of_lt (by omega : k < k + 1)]
  | succ m ih =>
    intro l hn
    cases l with
    | nil => simp [chunkGroupsPos, chunkGroupsGo, Nat.div_eq_of_lt (by omega : k < k + 1)]
    | cons x xs =>
      have hdl : ((x :: xs).drop (k + 1)).length = xs.length + 1 - (k + 1) := by
        simp
      have hbound : ((x :: xs).drop (k + 1)).length ≤ m := by
        rw [hdl]
        have : xs.length + 1 ≤ m + 1 := by simpa using hn
        omega
      rw [chunkGroupsPos_cons, List.length_cons, ih _ hbound, hdl, List.length_cons]
      rcases le_or_lt (k + 1) (xs.length + 1) with hge | hlt
      · have h1 : xs.length + 1 - (k + 1) + k = xs.length := by omega
        have h2 : xs.length + 1 + k = xs.length + (k + 1) := by omega
        rw [h1, h2, Nat.add_div_right _ (by omega)]
      · have h1 : xs.length + 1 - (k + 1) = 0 := by omega
        have h2 : (0 + k) / (k + 1) = 0 := Nat.div_eq_of_lt (by omega)
        have h3 : (xs.length + 1 + k) / (k + 1) = 1 := by
          rw [show xs.length + 1 + k = xs.length + (k + 1) from by omega,
            Nat.add_div_right _ (by omega), Nat.div_eq_of_lt (by omega)]
        rw [h1, h2, h3]

/-- The consecutive groups concatenate back to the original list: the
grouping is a partition. -/
theorem chunkGroupsPos_flatten {α : Type} (k : Nat) :
    ∀ l : List α, (chunkGroupsPos k l).flatten = l := by
  suffices H : ∀ n (l : List α), l.length ≤ n → (chunkGroupsPos k l).flatten = l by
    exact fun l => H l.length l le_rfl
  intro n
  induction n with
  | zero =>
    intro l hn
    have : l = [] := by
      cases l with
      | nil => rfl
      | cons a t => simp at hn
    subst this
    rfl
  | succ m ih =>
    intro l hn
    cases l with
    | nil => rfl
    | cons x xs =>
      have hbound : ((x :: xs).drop (k + 1)).length ≤ m := by
        simp only [List.length_drop, List.length_cons]
        have : xs.length + 1 ≤ m + 1 := by simpa using hn
        omega
      rw [chunkGroupsPos_cons, List.flatten_cons, ih _ hbound, List.take_append_drop]

/-- Every group of the partition is non-empty and holds at most
`k + 1` elements. -/
theorem chunkGroupsPos_sizes {α : Type} (k : Nat) :
    ∀ l : List α, ∀ g ∈ chunkGroupsPos k l, g.length ≤ k + 1 ∧ g ≠ [] := by
  suffices H : ∀ n (l : List α), l.length ≤ n →
      ∀ g ∈ chunkGroupsPos k l, g.length ≤ k + 1 ∧ g ≠ [] by
    exact fun l => H l.length l le_rfl
  intro n
  induction n with
  | zero =>
    intro l hn g hg
    have : l = [] := by
      cases l with
      | nil => rfl
      | cons a t => simp at hn
    subst this
    simp [chunkGroupsPos, chunkGroupsGo] at hg
  | succ m ih =>
    intro l hn g hg
    cases l with
    | nil => simp [chunkGroupsPos, chunkGroupsGo] at hg
    | cons x xs =>
      rw [chunkGroupsPos_cons] at hg
      rcases List.mem_cons.mp hg with rfl | hg
      · constructor
        · exact List.length_take_le _ _
        · simp
      · have hbound : ((x :: xs).drop (k + 1)).length ≤ m := by
          simp only [List.length_drop, List.length_cons]
          have : xs.length + 1 ≤ m + 1 := by simpa using hn
          omega
        exact ih _ hbound g hg

/-- Claim C5: for window size `K > 0`, `get_combined_chunks` produces
one combined document per consecutive group of `K` chunks (the last
group holding the remainder): its text is the in-order concatenation of
the group's chunk texts with no separator and its `combined_chunk_ids`
metadata is the group's chunk ids in order; the group count is
`ceil(n / K)`, the groups partition the input, and each group is
non-empty with at most `K` elements. -/
theorem c5_chunk_combination (l : List ChunkPair) (K : Nat) (hK : 0 < K) :
    get_combined_chunks l K
      = .ok ((chunkGroupsPos (K - 1) l).map (fun g =>
          { page_content := String.join (g.map (fun d => d.chunk_doc.page_content))
            metadata := [("combined_chunk_ids",
              MetaVal.ids (g.map (fun d => d.chunk_id)))] }))
  ∧ (chunkGroupsPos (K - 1) l).length = (l.length + K - 1) / K
  ∧ (chunkGroupsPos (K - 1) l).flatten = l
  ∧ (∀ g ∈ chunkGroupsPos (K - 1) l, g.length ≤ K ∧ g ≠ []) := by
  obtain ⟨k, rfl⟩ : ∃ k, K = k + 1 := ⟨K - 1, by omega⟩
  simp only [Nat.add_sub_cancel]
  refine ⟨?_, ?_, chunkGroupsPos_flatten k l, chunkGroupsPos_sizes k l⟩
  · unfold get_combined_chunks
    rw [if_neg (by omega)]
    dsimp only
    rw [zipWith_map_same]
    exact congrArg Except.ok (pyRange_slices_eq_groups k
      (fun g => ({ page_content := String.join (g.map (fun d => d.chunk_doc.page_content))
                   metadata := [("combined_chunk_ids",
                     MetaVal.ids (g.map (fun d => d.chunk_id)))] } : PyDocument)) l)
  · rw [chunkGroupsPos_length k l]
    have h1 : l.length + (k + 1) - 1 = l.length + k := by omega
    rw [h1]

/-- Witness for C5: seven concrete chunks with `K = 3` give three
combined documents with id-group sizes `[3, 3, 1]`. -/
theorem c5_chunk_combination_witness :
    0 < 3
  ∧ get_combined_chunks sampleSevenChunks 3
      = .ok ((chunkGroupsPos 2 sampleSevenChunks).map (fun g =>
          { page_content := String.join (g.map (fun d => d.chunk_doc.page_content))
            metadata := [("combined_chunk_ids",
              MetaVal.ids (g.map (fun d => d.chunk_id)))] }))
  ∧ (chunkGroupsPos 2 sampleSevenChunks).map List.length = [3, 3, 1]
  ∧ get_combined_chunks sampleSevenChunks 3
      = .ok [⟨"t1t2t3", [("combined_chunk_ids", MetaVal.ids ["c1", "c2", "c3"])]⟩,
             ⟨"t4t5t6", [("combined_chunk_ids", MetaVal.ids ["c4", "c5", "c6"])]⟩,
             ⟨"t7", [("combined_chunk_ids", MetaVal.ids ["c7"])]⟩] :=
  ⟨by decide, (c5_chunk_combination sampleSevenChunks 3 (by decide)).1, by decide, by rfl⟩

/-- Every character of a substitution result comes from the
replacement or from the input. -/
theorem pySubGo_mem (pat repl : List Char) :
    ∀ fuel l c, c ∈ pySubGo pat repl fuel l → c ∈ repl ∨ c ∈ l := by
  intro fuel
  induction fuel with
  | zero =>
    intro l c hc
    cases l with
    | nil => simp [pySubGo] at hc
    | cons a t => exact Or.inr hc
  | succ m ih =>
    intro l c hc
    cases l with
    | nil => simp [pySubGo] at hc
    | cons a t =>
      simp only [pySubGo] at hc
      by_cases h : pat ≠ [] ∧ ((a :: t).take pat.length).map Char.toLower = pat
      · rw [if_pos h] at hc
        rcases List.mem_append.mp hc with hc | hc
        · exact Or.inl hc
        · rcases ih _ c hc with hc | hc
          · exact Or.inl hc
          · exact Or.inr (List.drop_subset _ _ hc)
      · rw [if_neg h] at hc
        rcases List.mem_cons.mp hc with rfl | hc
        · exact Or.inr (List.mem_cons_self _ _)
        · rcases ih _ c hc with hc | hc
          · exact Or.inl hc
          · exact Or.inr (List.mem_cons_of_mem _ hc)

/-- Every character of a collapsed string is a space or comes from the
input. -/
theorem collapseGo_mem :
    ∀ fuel l c, c ∈ collapseGo fuel l → c = ' ' ∨ c ∈ l := by
  intro fuel
  induction fuel with
  | zero =>
    intro l c hc
    cases l with
    | nil => simp [collapseGo] at hc
    | cons a t => exact Or.inr hc
  | succ m ih =>
    intro l c hc
    cases l with
    | nil => simp [collapseGo] at hc
    | cons a t =>
      simp only [collapseGo] at hc
      by_cases h : pyIsSpace a = true
      · rw [if_pos h] at hc
        rcases List.mem_cons.mp hc with rfl | hc
        · exact Or.inl rfl
        · rcases ih _ c hc with hc | hc
          · exact Or.inl hc
          · exact Or.inr (List.mem_cons_of_mem _
              ((List.dropWhile_sublist pyIsSpace).subset hc))
      · rw [if_neg h] at hc
        rcases List.mem_cons.mp hc with rfl | hc
        · exact Or.inr (List.mem_cons_self _ _)
        · rcases ih _ c hc with hc | hc
          · exact Or.inl hc
          · exact Or.inr (List.mem_cons_of_mem _ hc)

/-- Dropping trailing characters yields a subset. -/
theorem dropTrailing_subset (p : Char → Bool) :
    ∀ l, dropTrailing p l ⊆ l := by
  intro l
  induction l with
  | nil => simp [dropTrailing]
  | cons a t ih =>
    intro c hc
    simp only [dropTrailing] at hc
    cases h : dropTrailing p t with
    | nil =>
      rw [h] at hc
      by_cases hp : p a = true
      · rw [if_pos hp] at hc
        simp at hc
      · rw [if_neg hp] at hc
        have : c = a := by simpa using hc
        subst this
        exact List.mem_cons_self _ _
    | cons r rs =>
      rw [h] at hc
      rcases List.mem_cons.mp hc with rfl | hc
      · exact List.mem_cons_self _ _
      · exact List.mem_cons_of_mem _ (ih (h ▸ hc))

/-- Stripping yields a subset of the input characters. -/
theorem pyStripList_subset : ∀ l, pyStripList l ⊆ l := by
  intro l c hc
  exact (List.dropWhile_sublist pyIsSpace).subset
    (dropTrailing_subset pyIsSpace _ hc)

/-- Every character surviving the pattern-blocking fold comes from the
replacement token or from the initial string. -/
theorem foldl_pySub_mem (repl : List Char) :
    ∀ (pats : List (List Char)) (x : List Char) c,
      c ∈ pats.foldl (fun s pat => pySubICase pat repl s) x → c ∈ repl ∨ c ∈ x := by
  intro pats
  induction pats with
  | nil => intro x c hc; exact Or.inr hc
  | cons p ps ih =>
    intro x c hc
    simp only [List.foldl_cons] at hc
    rcases ih _ c hc with hc | hc
    · exact Or.inl hc
    · exact pySubGo_mem p repl _ _ c hc

/-- The brace replacement never outputs a curly brace. -/
theorem braceMap_ne_braces (a : Char) : braceMap a ≠ lbrace ∧ braceMap a ≠ rbrace := by
  unfold braceMap
  by_cases h1 : a = lbrace
  · rw [if_pos h1]
    exact ⟨by decide, by decide⟩
  · rw [if_neg h1]
    by_cases h2 : a = rbrace
    · rw [if_pos h2]
      exact ⟨by decide, by decide⟩
    · rw [if_neg h2]
      refine ⟨h1, h2⟩

/-- `noAdjWs` restricts to the tail. -/
theorem noAdjWs_tail (c : Char) (l : List Char) (h : noAdjWs (c :: l) = true) :
    noAdjWs l = true := by
  cases l with
  | nil => rfl
  | cons d t =>
    simp only [noAdjWs, Bool.and_eq_true] at h
    exact h.2

/-- Prepending a character keeps `noAdjWs` when the character or the
next one is not whitespace. -/
theorem noAdjWs_cons_of (c : Char) (l : List Char) (hl : noAdjWs l = true)
    (hcd : pyIsSpace c = false ∨ headNotWs l = true) : noAdjWs (c :: l) = true := by
  cases l with
  | nil => rfl
  | cons d t =>
    simp only [noAdjWs, Bool.and_eq_true]
    refine ⟨?_, hl⟩
    rcases hcd with hc | hh
    · simp [hc]
    · simp only [headNotWs, Bool.not_eq_true'] at hh
      simp [hh]

/-- After dropping leading whitespace the head is not whitespace. -/
theorem headNotWs_dropWhile (l : List Char) :
    headNotWs (l.dropWhile pyIsSpace) = true := by
  induction l with
  | nil => rfl
  | cons a t ih =>
    rw [List.dropWhile_cons]
    by_cases h : pyIsSpace a = true
    · rw [if_pos h]
      exact ih
    · rw [if_neg h]
      simp only [headNotWs, Bool.not_eq_true']
      simpa using h

/-- Collapsing preserves a non-whitespace head. -/
theorem collapseGo_headNotWs (fuel : Nat) (l : List Char)
    (h : headNotWs l = true) : headNotWs (collapseGo fuel l) = true := by
  cases l with
  | nil => cases fuel <;> rfl
  | cons a t =>
    simp only [headNotWs, Bool.not_eq_true'] at h
    cases fuel with
    | zero =>
      simp only [collapseGo, headNotWs, Bool.not_eq_true']
      exact h
    | succ m =>
      simp only [collapseGo]
      rw [if_neg (by simp [h])]
      simp only [headNotWs, Bool.not_eq_true']
      exact h

/-- After collapsing, every whitespace character is a plain space. -/
theorem collapseGo_onlyPlain :
    ∀ fuel l, l.length ≤ fuel →
      ∀ c ∈ collapseGo fuel l, pyIsSpace c = true → c = ' ' := by
  intro fuel
  induction fuel with
  | zero =>
    intro l hl c hc
    have : l = [] := by
      cases l with
      | nil => rfl
      | cons a t => simp at hl
    subst this
    simp [collapseGo] at hc
  | succ m ih =>
    intro l hl c hc hsp
    cases l with
    | nil => simp [collapseGo] at hc
    | cons a t =>
      have ht : t.length ≤ m := by simpa using hl
      simp only [collapseGo] at hc
      by_cases h : pyIsSpace a = true
      · rw [if_pos h] at hc
        rcases List.mem_cons.mp hc with rfl | hc
        · rfl
        · exact ih _ ((List.dropWhile_sublist pyIsSpace).length_le.trans ht) c hc hsp
      · rw [if_neg h] at hc
        rcases List.mem_cons.mp hc with rfl | hc
        · exact absurd hsp (by simpa using h)
        · exact ih _ ht c hc hsp

/-- After collapsing, no two adjacent characters are whitespace. -/
theorem collapseGo_noAdj :
    ∀ fuel l, l.length ≤ fuel → noAdjWs (collapseGo fuel l) = true := by
  intro fuel
  induction fuel with
  | zero =>
    intro l hl
    have : l = [] := by
      cases l with
      | nil => rfl
      | cons a t => simp at hl
    subst this
    rfl
  | succ m ih =>
    intro l hl
    cases l with
    | nil => rfl
    | cons a t =>
      have ht : t.length ≤ m := by simpa using hl
      simp only [collapseGo]
      by_cases h : pyIsSpace a = true
      · rw [if_pos h]
        apply noAdjWs_cons_of
        · exact ih _ ((List.dropWhile_sublist pyIsSpace).length_le.trans ht)
        · exact Or.inr (collapseGo_headNotWs m _ (headNotWs_dropWhile t))
      · rw [if_neg h]
        apply noAdjWs_cons_of
        · exact ih _ ht
        · exact Or.inl (by simpa using h)

/-- Dropping leading whitespace preserves `noAdjWs`. -/
theorem noAdjWs_dropWhile (l : List Char) (h : noAdjWs l = true) :
    noAdjWs (l.dropWhile pyIsSpace) = true := by
  induction l with
  | nil => rfl
  | cons a t ih =>
    rw [List.dropWhile_cons]
    by_cases hp : pyIsSpace a = true
    · rw [if_pos hp]
      exact ih (noAdjWs_tail a t h)
    · rw [if_neg hp]
      exact h

/-- A non-empty `dropTrailing` result starts with the input's head. -/
theorem dropTrailing_head (p : Char → Bool) (l : List Char) (r : Char)
    (rs : List Char) (h : dropTrailing p l = r :: rs) : ∃ t2, l = r :: t2 := by
  cases l with
  | nil => simp [dropTrailing] at h
  | cons a t =>
    simp only [dropTrailing] at h
    cases h2 : dropTrailing p t with
    | nil =>
      rw [h2] at h
      by_cases hp : p a = true
      · rw [if_pos hp] at h
        simp at h
      · rw [if_neg hp] at h
        have har : a = r ∧ rs = [] := by simpa using h
        exact ⟨t, by rw [har.1]⟩
    | cons r2 rs2 =>
      rw [h2] at h
      have : a = r := (List.cons.injEq .. ▸ h).1
      exact ⟨t, by rw [this]⟩

/-- Dropping trailing characters preserves `noAdjWs`. -/
theorem noAdjWs_dropTrailing (p : Char → Bool) :
    ∀ l, noAdjWs l = true → noAdjWs (dropTrailing p l) = true := by
  intro l
  induction l with
  | nil => intro _; rfl
  | cons a t ih =>
    intro h
    simp only [dropTrailing]
    cases h2 : dropTrailing p t with
    | nil =>
      by_cases hp : p a = true
      · rw [if_pos hp]
        rfl
      · rw [if_neg hp]
        rfl
    | cons r rs =>
      have hrt := ih (noAdjWs_tail a t h)
      rw [h2] at hrt
      apply noAdjWs_cons_of a (r :: rs) hrt
      obtain ⟨t2, ht2⟩ := dropTrailing_head p t r rs h2
      subst ht2
      cases hsp : pyIsSpace a with
      | false => exact Or.inl rfl
      | true =>
        right
        simp only [headNotWs, Bool.not_eq_true']
        simp only [noAdjWs, Bool.and_eq_true] at h
        by_cases hr : pyIsSpace r = true
        · exfalso
          have hc := h.1
          rw [hsp, hr] at hc
          simp at hc
        · simpa using hr

/-- Dropping trailing characters preserves a non-whitespace head. -/
theorem headNotWs_dropTrailing (p : Char → Bool) (l : List Char)
    (h : headNotWs l = true) : headNotWs (dropTrailing p l) = true := by
  cases l with
  | nil => rfl
  | cons a t =>
    simp only [dropTrailing]
    cases h2 : dropTrailing p t with
    | nil =>
      by_cases hp : p a = true
      · rw [if_pos hp]
        rfl
      · rw [if_neg hp]
        exact h
    | cons r rs => exact h

/-- After dropping trailing whitespace the last character is not
whitespace. -/
theorem lastNotWs_dropTrailing :
    ∀ l, lastNotWs (dropTrailing pyIsSpace l) = true := by
  intro l
  induction l with
  | nil => rfl
  | cons a t ih =>
    simp only [dropTrailing]
    cases h2 : dropTrailing pyIsSpace t with
    | nil =>
      by_cases hp : pyIsSpace a = true
      · rw [if_pos hp]
        rfl
      · rw [if_neg hp]
        simp only [lastNotWs, Bool.not_eq_true']
        simpa using hp
    | cons r rs =>
      rw [h2] at ih
      simpa [lastNotWs] using ih

/-- The sanitizer's output on any character list: no braces, all
whitespace reduced to single interior spaces, trimmed at both ends. -/
theorem sanitizeChars_props (u : List Char) :
    lbrace ∉ sanitizeChars u
  ∧ rbrace ∉ sanitizeChars u
  ∧ onlyPlainSpaces (sanitizeChars u) = true
  ∧ noAdjWs (sanitizeChars u) = true
  ∧ headNotWs (sanitizeChars u) = true
  ∧ lastNotWs (sanitizeChars u) = true := by
  have hmem : ∀ c ∈ sanitizeChars u,
      c = ' ' ∨ c ∈ "[BLOCKED]".toList ∨ c ∈ u.map braceMap := by
    intro c hc
    have hc2 := pyStripList_subset _ hc
    rcases collapseGo_mem _ _ c hc2 with h | h
    · exact Or.inl h
    · rcases foldl_pySub_mem "[BLOCKED]".toList injection_patterns (u.map braceMap) c h
        with h2 | h2
      · exact Or.inr (Or.inl h2)
      · exact Or.inr (Or.inr h2)
  refine ⟨?_, ?_, ?_, ?_, ?_, ?_⟩
  · intro hc
    rcases hmem _ hc with h | h | h
    · exact absurd h (by decide)
    · exact absurd h (by decide)
    · obtain ⟨a, _, ha⟩ := List.mem_map.mp h
      exact (braceMap_ne_braces a).1 ha
  · intro hc
    rcases hmem _ hc with h | h | h
    · exact absurd h (by decide)
    · exact absurd h (by decide)
    · obtain ⟨a, _, ha⟩ := List.mem_map.mp h
      exact (braceMap_ne_braces a).2 ha
  · rw [onlyPlainSpaces, List.all_eq_true]
    intro c hc
    by_cases hsp : pyIsSpace c = true
    · have hsc : c = ' ' :=
        collapseGo_onlyPlain _ _ le_rfl c (pyStripList_subset _ hc) hsp
    
      simp [hsc]
    · simp [hsp]
  · exact noAdjWs_dropTrailing pyIsSpace _
      (noAdjWs_dropWhile _ (collapseGo_noAdj _ _ le_rfl))
  · exact headNotWs_dropTrailing pyIsSpace _ (headNotWs_dropWhile _)
  · exact lastNotWs_dropTrailing _

/-- The string wrapper computes the character-list sanitizer. -/
theorem sanitize_toList_eq (s : String) :
    (sanitize_additional_instruction s).toList = sanitizeChars s.toList := by
  unfold sanitize_additional_instruction
  rfl

/-- Claim C6 (amended): for every input string the output of
`sanitize_additional_instruction` contains no curly brace, every
whitespace character in it is a single plain space with no two
adjacent, and it has no leading or trailing whitespace.  The original
claim's further conjuncts - no case-insensitive occurrence of any
blocked pattern, and idempotence - are false on the code: whitespace
collapsing runs after pattern blocking and can synthesize a blocked
pattern (see the counterexample). -/
theorem c6_sanitize_normal_form (s : String) :
    lbrace ∉ (sanitize_additional_instruction s).toList
  ∧ rbrace ∉ (sanitize_additional_instruction s).toList
  ∧ onlyPlainSpaces (sanitize_additional_instruction s).toList = true
  ∧ noAdjWs (sanitize_additional_instruction s).toList = true
  ∧ headNotWs (sanitize_additional_instruction s).toList = true
  ∧ lastNotWs (sanitize_additional_instruction s).toList = true := by
  rw [sanitize_toList_eq]
  exact sanitizeChars_props s.toList

set_option maxHeartbeats 1000000 in
/-- Counterexample to Claim C6 as stated: sanitizing a tab-separated
`import` directive yields `import os`, which contains the blocked
pattern `import os`, and sanitizing again changes the string (to
`[BLOCKED]`), so sanitization is neither blocked-pattern-free nor
idempotent. -/
theorem c6_sanitize_counterexample :
    sanitize_additional_instruction "import\tos" = "import os"
  ∧ hasSubstrICase "import os" (sanitize_additional_instruction "import\tos") = true
  ∧ sanitize_additional_instruction (sanitize_additional_instruction "import\tos")
      ≠ sanitize_additional_instruction "import\tos" := by
  refine ⟨by decide, by decide, by decide⟩
